import Mathlib

/-!
Verification of the rustyos kernel specification against a shallow
embedding of the kernel source.  Each section embeds one subsystem of the
kernel (the bitmap frame allocator, the full-page virtual allocator, the
path algebra, the directory-entry cache, the PIT driver and the RAM
filesystem) as executable Lean definitions translated from the Rust
source, and proves or refutes the specification claims about it.
-/

set_option maxRecDepth 10000

/-! ## Bitmap frame allocator (src/kernel/src/memory/frame/mod.rs) -/

namespace FrameAlloc

/-- 2^64, the modulus of `u64` arithmetic. -/
def U64MOD : Nat := 18446744073709551616

/-- `u64::MAX`. -/
def U64MAX : Nat := U64MOD - 1

/-- A bootloader memory region `MemoryRegion { start, end, kind }`.
`usable` is true when `kind == MemoryRegionKind::Usable`. -/
structure Region where
  start : Nat
  stop : Nat
  usable : Bool
  deriving DecidableEq, Repr

/-- `usable_regions`: filter the region list down to the usable regions. -/
def usableRegions (regions : List Region) : List Region :=
  regions.filter (·.usable)

/-- `u64::leading_ones` of a 64-bit word: the number of consecutive set
bits starting from bit 63. -/
def leadingOnes64 (w : Nat) : Nat :=
  ((List.range 64).takeWhile (fun i => w.testBit (63 - i))).length

/-- `BitmapFrameAllocator::mark_frame_used`: set bit `63 - (frame % 64)`
of word `frame / 64`. -/
def markFrameUsed (bitmap : List Nat) (frame : Nat) : List Nat :=
  let word := frame / 64
  let bit := 63 - frame % 64
  bitmap.set word ((bitmap.getD word 0) ||| (1 <<< bit))

/-- `BitmapFrameAllocator::mark_frame_free`: clear bit `63 - (frame % 64)`
of word `frame / 64`.  `!(1 << bit)` is the 64-bit complement. -/
def markFrameFree (bitmap : List Nat) (frame : Nat) : List Nat :=
  let word := frame / 64
  let bit := 63 - frame % 64
  bitmap.set word ((bitmap.getD word 0) &&& (U64MAX ^^^ (1 <<< bit)))

/-- `BitmapFrameAllocator::first_free_frame`: scan for the first word
that is `!= 0` and return `i * 64 + word.leading_ones()`. -/
def firstFreeFrame : List Nat → Option Nat :=
  go 0
where
  go : Nat → List Nat → Option Nat
    | _, [] => none
    | i, w :: ws =>
      if w ≠ 0 then some (i * 64 + leadingOnes64 w) else go (i + 1) ws

/-- `BitmapFrameAllocator::frame_to_address`: walk the usable regions,
subtracting each region's frame count until the frame index lands inside
one. -/
def frameToAddress (regions : List Region) (frame : Nat) : Option Nat :=
  go (usableRegions regions) frame
where
  go : List Region → Nat → Option Nat
    | [], _ => none
    | r :: rs, f =>
      let frames := (r.stop - r.start) / 4096
      if f < frames then some (r.start + f * 4096) else go rs (f - frames)

/-- `BitmapFrameAllocator::address_to_frame`.  The accumulator is
advanced by `(region.start - region.end) / 4096`, a wrapping `u64`
subtraction, exactly as in the source (see §9 of the spec). -/
def addressToFrame (regions : List Region) (addr : Nat) : Option Nat :=
  go (usableRegions regions) 0
where
  go : List Region → Nat → Option Nat
    | [], _ => none
    | r :: rs, frame =>
      if r.start ≤ addr ∧ addr < r.stop then
        some (frame + (addr - r.start) / 4096)
      else
        go rs ((frame + ((r.start + U64MOD - r.stop % U64MOD) % U64MOD) / 4096) % U64MOD)

/-- The allocator state: the region map and the bitmap words. -/
structure State where
  regions : List Region
  bitmap : List Nat
  deriving DecidableEq, Repr

/-- `BitmapFrameAllocator::allocate_frame`: find the first free frame,
mark it used, translate it to a physical address.  The `?` on
`first_free_frame` returns before mutating; the `?` on
`frame_to_address` returns after the bit has already been set. -/
def allocateFrame (s : State) : Option Nat × State :=
  match firstFreeFrame s.bitmap with
  | none => (none, s)
  | some frame =>
    let bm := markFrameUsed s.bitmap frame
    match frameToAddress s.regions frame with
    | none => (none, { s with bitmap := bm })
    | some addr => (some addr, { s with bitmap := bm })

/-- `BitmapFrameAllocator::deallocate_frame`: translate the address back
to a frame index and clear its bit (panics, modelled as `none`, when the
address is in no usable region). -/
def deallocateFrame (s : State) (addr : Nat) : Option State :=
  match addressToFrame s.regions addr with
  | none => none
  | some frame => some { s with bitmap := markFrameFree s.bitmap frame }

/-- Does the bitmap have a clear bit among the first `n` frame bits?
(`1` means allocated, `0` means free.) -/
def hasFreeBit (bitmap : List Nat) (n : Nat) : Bool :=
  (List.range n).any (fun f => !((bitmap.getD (f / 64) 0).testBit (63 - f % 64)))

end FrameAlloc

/-! ## PIT driver (src/kernel/src/pit.rs) -/

namespace Pit

/-- `TIMER_FREQUENCY`. -/
def TIMER_FREQUENCY : Nat := 1193182

/-- The PIT operating modes, as in `pit::OperatingMode`. -/
inductive OperatingMode
  | interruptOnTerminalCount
  | hardwareRetriggerableOneShot
  | rateGenerator
  | squareWaveGenerator
  | softwareTriggeredStrobe
  | hardwareTriggeredStrobe
  deriving DecidableEq, Repr

/-- The discriminant of an operating mode. -/
def OperatingMode.val : OperatingMode → Nat
  | .interruptOnTerminalCount => 0
  | .hardwareRetriggerableOneShot => 1
  | .rateGenerator => 2
  | .squareWaveGenerator => 3
  | .softwareTriggeredStrobe => 4
  | .hardwareTriggeredStrobe => 5

/-- `set_cmd` for `Channel0` with `AccessMode::LoHiByte`: the command
byte is `0 | (3 << 4) | (mode << 2/..)`, i.e. `0x30 | (mode << 1)`,
written to port 0x43. -/
def cmdByte (mode : OperatingMode) : Nat :=
  0 ||| (3 <<< 4) ||| (mode.val <<< 1)

/-- The result of `start_timer` on PIT0: either a Rust panic (division
by zero), the `TryFromIntError` failure of `try_into`, or success
together with the `(port, byte)` writes issued, in order. -/
inductive TimerResult
  | panicked
  | err
  | ok (writes : List (Nat × Nat))
  deriving DecidableEq, Repr

/-- `ProgrammableIntervalTimer::start_timer` for PIT0 (channel port
0x40, command port 0x43): compute `divisor = TIMER_FREQUENCY / freq`,
fail if it does not fit in `u16`, otherwise write the command byte and
the divisor low byte then high byte. -/
def startTimer (mode : OperatingMode) (freq : Nat) : TimerResult :=
  if freq = 0 then .panicked
  else
    let divisor := TIMER_FREQUENCY / freq
    if 65535 < divisor then .err
    else .ok [(0x43, cmdByte mode), (0x40, divisor &&& 0xff), (0x40, divisor >>> 8)]

end Pit

/-! ## RAM filesystem error returns (src/kernel/src/fs/ramfs/mod.rs) -/

namespace Vfs

/-- `vfs::FSError` (src/kernel/src/fs/vfs/error.rs). -/
inductive FSError
  | BadPath
  | NoEntry
  | NoMount
  | MissingInode
  | WrongInode
  | NotDirectory
  | Exists
  | Unimplemented
  | NotSupported
  deriving DecidableEq, Repr

end Vfs

namespace Ramfs

/-- `ramfs::InodeOps::unlink`: ignores its arguments and returns
`Err(FSError::Unimplemented)`. -/
def unlink (_dst : α) (_parent : β) : Except Vfs.FSError Unit :=
  .error .Unimplemented

/-- `ramfs::InodeOps::rename`: ignores its arguments and returns
`Err(FSError::Unimplemented)`. -/
def rename (_src : α) (_srcP : β) (_dstP : β) (_path : γ) : Except Vfs.FSError Unit :=
  .error .Unimplemented

/-- `ramfs::SuperBlock::destroy_inode`: the body is `todo!()`, which
panics; the operation never produces a value, modelled as `none`. -/
def destroyInode (_inodeN : Nat) : Option (Except Vfs.FSError Unit) :=
  none

end Ramfs

/-! ## Theorems for claims C1, C2, C8, C9 -/

/-- C1: the claim states that `allocate_frame` returns `Some` and sets a
bit whenever some bitmap bit is clear, and returns `None` once every bit
is set.  The code's `first_free_frame` scans for the first word `!= 0`
(a word containing an *allocated* frame) instead of the first word
`!= u64::MAX`, so on an all-free one-word bitmap it returns `None`, and
on an all-ones two-word bitmap (every frame allocated) it returns
`Some 0x40000` (frame 64) again.  This theorem evaluates the code at
both failing inputs. -/
theorem bitmap_allocate_scan_inverted :
    (FrameAlloc.hasFreeBit [0] 64 = true ∧
      (FrameAlloc.allocateFrame
        { regions := [⟨0, 0x40000, true⟩], bitmap := [0] }).1 = none) ∧
    (FrameAlloc.hasFreeBit [FrameAlloc.U64MAX, FrameAlloc.U64MAX] 128 = false ∧
      (FrameAlloc.allocateFrame
        { regions := [⟨0, 0x80000, true⟩],
          bitmap := [FrameAlloc.U64MAX, FrameAlloc.U64MAX] }).1 = some 0x40000) := by
  decide

/-- C2: the claim states `address_to_frame (frame_to_address f) = some f`
for every frame index `f` below the total usable frame count, including
indices in the second usable region.  The code advances the frame
accumulator by `(region.start - region.end) / 4096`, a wrapping `u64`
underflow, so for two one-frame regions `[0, 0x1000)` and
`[0x2000, 0x3000)` the index 1 translates to address `0x2000` but back
to frame `(2^64 - 0x1000)/4096 = 2^52 - 1`, not 1. -/
theorem address_to_frame_roundtrip_underflow :
    FrameAlloc.frameToAddress
        [⟨0, 0x1000, true⟩, ⟨0x2000, 0x3000, true⟩] 1 = some 0x2000 ∧
    FrameAlloc.addressToFrame
        [⟨0, 0x1000, true⟩, ⟨0x2000, 0x3000, true⟩] 0x2000 =
      some 4503599627370495 ∧
    FrameAlloc.addressToFrame
        [⟨0, 0x1000, true⟩, ⟨0x2000, 0x3000, true⟩] 0x2000 ≠ some 1 := by
  decide

/-- C8: for every `freq > 0`, PIT `start_timer(mode, freq)` fails with a
`TryFromIntError` exactly when the divisor `TIMER_FREQUENCY / freq` does
not fit in 16 bits, and otherwise writes the command byte to port 0x43
followed by the divisor low byte then high byte to channel port 0x40 and
returns `Ok`. -/
theorem pit_start_timer_spec (mode : Pit.OperatingMode) (freq : Nat) (h : 0 < freq) :
    (Pit.startTimer mode freq = .err ↔ 65535 < Pit.TIMER_FREQUENCY / freq) ∧
    (Pit.TIMER_FREQUENCY / freq ≤ 65535 →
      Pit.startTimer mode freq =
        .ok [(0x43, Pit.cmdByte mode),
             (0x40, (Pit.TIMER_FREQUENCY / freq) &&& 0xff),
             (0x40, (Pit.TIMER_FREQUENCY / freq) >>> 8)]) := by
  have hz : freq ≠ 0 := Nat.pos_iff_ne_zero.mp h
  unfold Pit.startTimer
  rw [if_neg hz]
  rcases Nat.lt_or_ge 65535 (Pit.TIMER_FREQUENCY / freq) with hlt | hle
  · rw [if_pos hlt]
    exact ⟨⟨fun _ => hlt, fun _ => rfl⟩, fun h2 => absurd hlt (by omega)⟩
  · rw [if_neg (by omega)]
    exact ⟨⟨fun he => absurd he (by simp), fun hc => absurd hc (by omega)⟩, fun _ => rfl⟩

/-- C8 witness: the theorem applied at `InterruptOnTerminalCount`,
100 Hz, the calibration frequency actually used at boot. -/
theorem pit_start_timer_spec_witness :
    0 < 100 ∧
    ((Pit.startTimer .interruptOnTerminalCount 100 = .err ↔
        65535 < Pit.TIMER_FREQUENCY / 100) ∧
      (Pit.TIMER_FREQUENCY / 100 ≤ 65535 →
        Pit.startTimer .interruptOnTerminalCount 100 =
          .ok [(0x43, Pit.cmdByte .interruptOnTerminalCount),
               (0x40, (Pit.TIMER_FREQUENCY / 100) &&& 0xff),
               (0x40, (Pit.TIMER_FREQUENCY / 100) >>> 8)])) :=
  ⟨by decide, pit_start_timer_spec .interruptOnTerminalCount 100 (by decide)⟩

/-- C9 counterexample: at concrete inputs, `ramfs` `unlink` and `rename`
return `Unimplemented`, not `NotSupported`, and `destroy_inode` panics
(`todo!()`) rather than returning any error value. -/
theorem ramfs_stub_not_notsupported :
    Ramfs.unlink () () ≠ .error Vfs.FSError.NotSupported ∧
    Ramfs.rename () () () () ≠ .error Vfs.FSError.NotSupported ∧
    Ramfs.destroyInode 0 = none := by
  refine ⟨?_, ?_, rfl⟩ <;> simp [Ramfs.unlink, Ramfs.rename]

/-- C9 amended: for every input, the RAM filesystem's `unlink` and
`rename` inode operations return `Err(FSError::Unimplemented)`, and the
superblock's `destroy_inode` panics via `todo!()` (it never returns a
value). -/
theorem ramfs_stub_returns_unimplemented (dst : α) (parent : β) (src : α)
    (srcP : β) (dstP : β) (path : γ) (n : Nat) :
    Ramfs.unlink dst parent = .error Vfs.FSError.Unimplemented ∧
    Ramfs.rename src srcP dstP path = .error Vfs.FSError.Unimplemented ∧
    Ramfs.destroyInode n = none :=
  ⟨rfl, rfl, rfl⟩

/-! ## Full-page virtual allocator (src/kernel/src/memory/allocator/page.rs)

The doubly-linked list of descriptor pages is embedded as a `List` of
pages (the head is the first `FPAInner`; the `next` pointers are the
tail).  Each descriptor page is a `List Entry` of length
`ENTRIES_LEN = 170`.  Every recursive Rust method that starts at `self`
and walks `next` becomes a recursion over the suffix of the page list. -/

namespace Fpa

/-- 2^64, the modulus of `u64` arithmetic. -/
def U64MOD : Nat := 18446744073709551616

/-- Wrap a value to `u64`. -/
def w64 (n : Nat) : Nat := n % U64MOD

/-- `ENTRIES_LEN`. -/
def ENTRIES_LEN : Nat := 170

/-- `ALLOCATOR_START` from src/kernel/src/memory/layout.rs:
the byte after `BITMAP_FRAME_ALLOCATOR_END`. -/
def ALLOCATOR_START : Nat := 0xffffc90000000000

/-- `ALLOCATOR_END` from src/kernel/src/memory/layout.rs:
`ALLOCATOR_START + 31 TiB - 1`. -/
def ALLOCATOR_END : Nat := 0xffffe7ffffffffff

/-- `VirtAddr::align_up`. -/
def alignUp (a align : Nat) : Nat := (a + align - 1) / align * align

/-- `page::Entry`. -/
inductive Entry
  | empty
  | usable (start pages : Nat)
  deriving DecidableEq, Repr

/-- A descriptor page's entry array. -/
abbrev Page := List Entry

/-- A fully empty descriptor page, as produced by `add_entry_page`. -/
def emptyPage : Page := List.replicate ENTRIES_LEN Entry.empty

/-- `FPAInner::remove_entry(idx)` restricted to one page: `mem::replace`
the slot with `Empty`, then `copy_within(idx+1.., idx)` (slot
`ENTRIES_LEN-1` keeps its old value unless `idx` is the last slot). -/
def removeShift (p : Page) (idx : Nat) : Page :=
  let q := p.set idx .empty
  q.eraseIdx idx ++ [q.getD (ENTRIES_LEN - 1) .empty]

/-- `FPAInner::remove_entry(idx)` over the page chain: pull slot 0 of
the next page into the freed last slot; when the pull yields `Empty`,
`remove_entry_page` unlinks the last page of the chain. -/
def removeEntry : List Page → Nat → Entry × List Page
  | [], _ => (.empty, [])
  | [p], idx => (p.getD idx .empty, [removeShift p idx])
  | p :: q :: rest, idx =>
    let pulled := removeEntry (q :: rest) 0
    let p2 := removeShift p idx
    match pulled with
    | (.empty, rest2) => (p.getD idx .empty, (p2 :: rest2).dropLast)
    | (.usable s pg, rest2) =>
      (p.getD idx .empty, p2.set (ENTRIES_LEN - 1) (.usable s pg) :: rest2)

/-- Outcome of the entry scan inside `FPAInner::find_free_pages`. -/
inductive FFPOut
  | found (addr : Nat)
  | aborted
  | fellThrough
  deriving DecidableEq, Repr

/-- The entry loop of `find_free_pages`: the first `Empty` entry makes
the whole search return `None`; a `Usable` entry with enough pages is
returned; otherwise fall through to the next page. -/
def ffpScan : Page → Nat → FFPOut
  | [], _ => .fellThrough
  | .empty :: _, _ => .aborted
  | .usable s p :: tl, req =>
    if req ≤ p then .found s else ffpScan tl req

/-- `FPAInner::find_free_pages`. -/
def findFreePages : List Page → Nat → Option Nat
  | [], _ => none
  | p :: rest, req =>
    match ffpScan p req with
    | .found a => some a
    | .aborted => none
    | .fellThrough => findFreePages rest req

/-- Outcome of the entry scan inside `FPAInner::alloc_pages`. -/
inductive APOut
  | stop
  | exact (i : Nat)
  | shrink (i pOld : Nat)
  | cont
  deriving DecidableEq, Repr

/-- The entry loop of `alloc_pages`: return (doing nothing) on the first
`Empty` entry, find the entry whose start matches, and either remove it
(exact size) or shrink it. -/
def apScan : Page → Nat → Nat → Nat → APOut
  | [], _, _, _ => .cont
  | .empty :: _, _, _, _ => .stop
  | .usable s p :: tl, start, pages, i =>
    if s ≠ start then apScan tl start pages (i + 1)
    else if p = pages then .exact i
    else .shrink i p

/-- `FPAInner::alloc_pages`; `none` models the
`panic!("No match found in any entry page")`. -/
def allocPages : List Page → Nat → Nat → Option (List Page)
  | [], _, _ => none
  | p :: rest, start, pages =>
    match apScan p start pages 0 with
    | .stop => some (p :: rest)
    | .exact i => some (removeEntry (p :: rest) i).2
    | .shrink i pOld =>
      some (p.set i (.usable (w64 (start + pages * 0x1000)) (pOld - pages)) :: rest)
    | .cont => (allocPages rest start pages).map (p :: ·)

/-- `FPAInner::insert_entry(idx, entry)`: when the last slot is
`Usable`, first push it to slot 0 of the next page (allocating a fresh
descriptor page from the chain itself if there is none — in that case
the fresh page is all-`Empty`, so its own `insert_entry(0, ..)` takes
the plain shift-and-write branch); then shift the page's entries up and
write the new entry at `idx`.  `none` models `AllocError`. -/
def insertEntry : List Page → Nat → Entry → Option (List Page)
  | [], _, _ => none
  | p :: rest, idx, e =>
    let shifted := (p.insertIdx idx e).take ENTRIES_LEN
    match p.getD (ENTRIES_LEN - 1) .empty with
    | .empty => some (shifted :: rest)
    | .usable s pg =>
      match rest with
      | q :: rs => do
        let rest2 ← insertEntry (q :: rs) 0 (.usable s pg)
        pure (shifted :: rest2)
      | [] => do
        let addr ← findFreePages [p] 1
        let c2 ← allocPages [p] addr 1
        match c2 with
        | [p2] =>
          some (((p2.insertIdx idx e).take ENTRIES_LEN)
            :: [(emptyPage.insertIdx 0 (.usable s pg)).take ENTRIES_LEN])
        | _ => none

/-- `FPAInner::append_entry(entry)`: write into the first `Empty` slot,
else into the next page, else allocate a fresh descriptor page (whose
first empty slot is slot 0).  `none` models `AllocError`. -/
def appendEntry : List Page → Entry → Option (List Page)
  | [], _ => none
  | p :: rest, e =>
    match p.findIdx? (· = Entry.empty) with
    | some idx => some (p.set idx e :: rest)
    | none =>
      match rest with
      | q :: rs => (appendEntry (q :: rs) e).map (p :: ·)
      | [] => do
        let addr ← findFreePages [p] 1
        let c2 ← allocPages [p] addr 1
        match c2 with
        | [p2] => some [p2, emptyPage.set 0 e]
        | _ => none

/-- One step bound for `squash_entries` (the fuel is a modelling device;
every run in this development finishes long before exhausting it). -/
def SQUASH_FUEL : Nat := 4096

/-- The loop of `FPAInner::squash_entries` with index `i`: an `Empty`
entry at `i` or `i+1` returns from the whole method (without recursing
into the next page); adjacent entries are merged and the second removed
(which may pull entries in from later pages); after the loop the next
page is squashed. -/
def squashGo : Nat → List Page → Nat → List Page
  | 0, chain, _ => chain
  | _ + 1, [], _ => []
  | fuel + 1, p :: rest, i =>
    if i < ENTRIES_LEN - 1 then
      match p.getD i .empty, p.getD (i + 1) .empty with
      | .usable s pg, .usable s2 pg2 =>
        if w64 (s + pg * 0x1000) = s2 then
          squashGo fuel (removeEntry (p.set i (.usable s (w64 (pg + pg2))) :: rest) (i + 1)).2 i
        else
          squashGo fuel (p :: rest) (i + 1)
      | _, _ => p :: rest
    else
      match rest with
      | [] => [p]
      | q :: rs => p :: squashGo fuel (q :: rs) 0

/-- `FPAInner::squash_entries`. -/
def squashEntries (chain : List Page) : List Page :=
  squashGo SQUASH_FUEL chain 0

/-- Outcome of the entry scan inside `FPAInner::dealloc_pages`. -/
inductive DPOut
  | retOk
  | extend (i pOld : Nat)
  | insertAt (i : Nat)
  | cont
  deriving DecidableEq, Repr

/-- The entry loop of `dealloc_pages`: the first `Empty` entry returns
`Ok` (doing nothing); entries with `s < start` are skipped; an entry
starting exactly at `start + pages*0x1000` is extended downward; any
other entry with `s ≥ start` triggers an insertion before it. -/
def dpScan : Page → Nat → Nat → Nat → DPOut
  | [], _, _, _ => .cont
  | .empty :: _, _, _, _ => .retOk
  | .usable s p :: tl, start, pages, i =>
    if s < start then dpScan tl start pages (i + 1)
    else if s = w64 (start + pages * 0x1000) then .extend i p
    else .insertAt i

/-- `FPAInner::dealloc_pages(start, pages)`.  The extend-downward branch
returns `Ok` immediately; the insert and append branches run
`squash_entries` afterwards. -/
def deallocPages : List Page → Nat → Nat → Option (List Page)
  | [], _, _ => none
  | p :: rest, start, pages =>
    match dpScan p start pages 0 with
    | .retOk => some (p :: rest)
    | .extend i pOld =>
      some (p.set i (.usable start (w64 (pOld + pages))) :: rest)
    | .insertAt i => do
      let c2 ← insertEntry (p :: rest) i (.usable start pages)
      pure (squashEntries c2)
    | .cont =>
      match rest with
      | q :: rs => (deallocPages (q :: rs) start pages).map (p :: ·)
      | [] => do
        let c2 ← appendEntry [p] (.usable start pages)
        pure (squashEntries c2)

/-- The first descriptor page built by `add_entry_page(None)`: all
entries `Empty` except slot 0, which covers the allocator window minus
the descriptor page itself. -/
def initChain : List Page :=
  [emptyPage.set 0 (.usable (ALLOCATOR_START + 0x1000)
    ((alignUp ALLOCATOR_END 0x1000 - ALLOCATOR_START + 0x1000) / 0x1000))]

/-- `FullPageAllocator::allocate` (the free-list part): `n =
ceil(bytes/4096)`, find the first fitting run, carve it.  Returns the
chosen address, the page count and the updated chain (`none` models
`AllocError`).  The subsequent `alloc_kpage` calls touch the frame
allocator and page table, not the free list. -/
def allocate (chain : List Page) (size : Nat) : Option (Nat × Nat × List Page) := do
  let numPages := (size + 4095) / 4096
  let addr ← findFreePages chain numPages
  let c2 ← allocPages chain addr numPages
  pure (addr, numPages, c2)

/-- `FullPageAllocator::deallocate(ptr, layout)`: compute the page range
`containing(ptr) .. containing(ptr + 0x1000*n)` and `free_kpage` each
page.  The function never touches the free-list chain, which is
returned unchanged; the first component lists the unmapped page
addresses in order. -/
def deallocate (chain : List Page) (ptr size : Nat) : List Nat × List Page :=
  let numPages := (size + 4095) / 4096
  let startPage := ptr / 4096 * 4096
  let endPage := (ptr + 0x1000 * numPages) / 4096 * 4096
  ((List.range ((endPage - startPage) / 4096)).map (fun i => startPage + 0x1000 * i),
   chain)

/-- Is a page's entry list a block of `Usable` entries followed by
`Empty` entries? -/
def pageShapeOk (p : Page) : Bool :=
  (p.dropWhile (fun e => e matches .usable ..)).all (· = Entry.empty)

/-- The `(start, pages)` pairs of the `Usable` entries of the chain, in
page order. -/
def entryList (chain : List Page) : List (Nat × Nat) :=
  chain.flatMap (fun p => p.filterMap (fun e =>
    match e with
    | .empty => none
    | .usable s pg => some (s, pg)))

/-- Consecutive runs are strictly ascending, disjoint and not adjacent
(`a.start + a.pages*4096 < b.start`). -/
def consecOk : List (Nat × Nat) → Bool
  | a :: b :: tl =>
    a.1 < b.1 && a.1 + a.2 * 4096 ≤ b.1 && a.1 + a.2 * 4096 ≠ b.1 && consecOk (b :: tl)
  | _ => true

/-- The claim C4 invariant: every page is sorted with `Empty` slots at
the end, and the flattened run list is ascending, overlap-free and
fully coalesced. -/
def fpaInv (chain : List Page) : Bool :=
  chain.all pageShapeOk && consecOk (entryList chain)

/-- The window size in pages of the initial free entry. -/
def N0 : Nat := (alignUp ALLOCATOR_END 0x1000 - ALLOCATOR_START + 0x1000) / 0x1000

/-- First page of the allocator window handed out by `allocate`. -/
def S0 : Nat := ALLOCATOR_START + 0x1000

/-- A one-page chain with a single usable run. -/
def mkChain (s p : Nat) : List Page := [emptyPage.set 0 (.usable s p)]

/-- A one-page chain with two usable runs. -/
def mkChain2 (s1 p1 s2 p2 : Nat) : List Page :=
  [(emptyPage.set 0 (.usable s1 p1)).set 1 (.usable s2 p2)]

end Fpa

/-! ## Theorems for claims C3 and C4 -/

/-- C3: the claim states that `deallocate(ptr, bytes)` unmaps the
`n = ceil(bytes/4096)` pages and then inserts the freed run back into
the descriptor-page free list.  In the code `FPAInner::dealloc_pages`
is never called (it has no callers), so `deallocate` unmaps the pages
but returns the free list unchanged.  Evaluated at the failing input:
after allocating one page (address `S0`) from the fresh allocator,
`deallocate(S0, 4096)` unmaps exactly page `S0` yet leaves the free
list as it was, while the re-insertion the claim requires
(`dealloc_pages(S0, 1)`) would have produced a different list. -/
theorem fpa_deallocate_never_reinserts :
    Fpa.allocate Fpa.initChain 4096 =
      some (Fpa.S0, 1, Fpa.mkChain (Fpa.S0 + 0x1000) (Fpa.N0 - 1)) ∧
    Fpa.deallocate (Fpa.mkChain (Fpa.S0 + 0x1000) (Fpa.N0 - 1)) Fpa.S0 4096 =
      ([Fpa.S0], Fpa.mkChain (Fpa.S0 + 0x1000) (Fpa.N0 - 1)) ∧
    Fpa.deallocPages (Fpa.mkChain (Fpa.S0 + 0x1000) (Fpa.N0 - 1)) Fpa.S0 1 ≠
      some (Fpa.mkChain (Fpa.S0 + 0x1000) (Fpa.N0 - 1)) := by
  decide

set_option maxHeartbeats 1000000 in
/-- C4: the claim states that after every free-list operation no two
adjacent `Usable` runs remain uncoalesced.  The extend-downward branch
of `dealloc_pages` returns without running `squash_entries`, so the
sequence (from the initial chain) allocate, allocate, allocate,
`dealloc_pages(S0,1)`, `dealloc_pages(S0+0x2000,1)`,
`dealloc_pages(S0+0x1000,1)` reaches an invariant-satisfying state and
then produces `[Usable(S0,1), Usable(S0+0x1000, N0-1)]`, whose first
run ends exactly at the second run's start. -/
theorem fpa_dealloc_extend_skips_squash :
    Fpa.allocate Fpa.initChain 4096 =
      some (Fpa.S0, 1, Fpa.mkChain (Fpa.S0 + 0x1000) (Fpa.N0 - 1)) ∧
    Fpa.allocate (Fpa.mkChain (Fpa.S0 + 0x1000) (Fpa.N0 - 1)) 4096 =
      some (Fpa.S0 + 0x1000, 1, Fpa.mkChain (Fpa.S0 + 0x2000) (Fpa.N0 - 2)) ∧
    Fpa.allocate (Fpa.mkChain (Fpa.S0 + 0x2000) (Fpa.N0 - 2)) 4096 =
      some (Fpa.S0 + 0x2000, 1, Fpa.mkChain (Fpa.S0 + 0x3000) (Fpa.N0 - 3)) ∧
    Fpa.deallocPages (Fpa.mkChain (Fpa.S0 + 0x3000) (Fpa.N0 - 3)) Fpa.S0 1 =
      some (Fpa.mkChain2 Fpa.S0 1 (Fpa.S0 + 0x3000) (Fpa.N0 - 3)) ∧
    Fpa.deallocPages (Fpa.mkChain2 Fpa.S0 1 (Fpa.S0 + 0x3000) (Fpa.N0 - 3))
        (Fpa.S0 + 0x2000) 1 =
      some (Fpa.mkChain2 Fpa.S0 1 (Fpa.S0 + 0x2000) (Fpa.N0 - 2)) ∧
    Fpa.fpaInv (Fpa.mkChain2 Fpa.S0 1 (Fpa.S0 + 0x2000) (Fpa.N0 - 2)) = true ∧
    Fpa.deallocPages (Fpa.mkChain2 Fpa.S0 1 (Fpa.S0 + 0x2000) (Fpa.N0 - 2))
        (Fpa.S0 + 0x1000) 1 =
      some (Fpa.mkChain2 Fpa.S0 1 (Fpa.S0 + 0x1000) (Fpa.N0 - 1)) ∧
    Fpa.fpaInv (Fpa.mkChain2 Fpa.S0 1 (Fpa.S0 + 0x1000) (Fpa.N0 - 1)) = false := by
  exact ⟨by decide, by decide, by decide, by decide, by decide, by decide, by decide,
    by decide⟩

/-! ## Path algebra (src/kernel/src/fs/path/)

Paths are embedded as `List Char` (`Path` wraps `str`).  The
`Components` double-ended iterator, `PathBuf::push` and
`Path::strip_prefix` are translated from components.rs, pathbuf.rs and
mod.rs.  The iterator loops are written with an explicit step budget
(`fuel`); every loop in the source consumes at least one byte of the
path or advances the front/back state, so a budget of
`path.length + 3` steps is never exhausted. -/

namespace Paths

/-- `SEPERATOR`. -/
def SEP : Char := '/'

/-- `path::Component`. -/
inductive Component
  | rootDir
  | curDir
  | parentDir
  | normal (s : List Char)
  deriving DecidableEq, Repr

/-- `components::State`. -/
inductive PState
  | startDir
  | body
  | finished
  deriving DecidableEq, Repr

/-- The derived `Ord` on `components::State` (`StartDir < Body < Done`). -/
def PState.rank : PState → Nat
  | .startDir => 0
  | .body => 1
  | .finished => 2

/-- `has_physical_root`: non-empty and starting with the separator. -/
def hasPhysicalRoot : List Char → Bool
  | [] => false
  | c :: _ => c = SEP

/-- `parse_single_component`: `"."` and `""` give nothing (interior
`CurDir` is handled only by `include_cur_dir`), `".."` is `ParentDir`,
anything else is `Normal`. -/
def parseSingleComponent (comp : List Char) : Option Component :=
  if comp = ['.'] ∨ comp = [] then none
  else if comp = ['.', '.'] then some .parentDir
  else some (.normal comp)

/-- `components::Components`. -/
structure Components where
  path : List Char
  physRoot : Bool
  front : PState
  back : PState
  deriving DecidableEq, Repr

/-- `Components::new`. -/
def Components.new (p : List Char) : Components :=
  ⟨p, hasPhysicalRoot p, .startDir, .body⟩

/-- `Components::has_root`. -/
def Components.hasRoot (c : Components) : Bool := c.physRoot

/-- `Components::finished`: front or back is `Done`, or front is past
back. -/
def Components.isFinished (c : Components) : Bool :=
  c.front = .finished || c.back = .finished || c.back.rank < c.front.rank

/-- `Components::include_cur_dir`: no root, and the path is `"."` or
starts with `"./"`. -/
def includeCurDir (c : Components) : Bool :=
  if c.hasRoot then false
  else
    match c.path with
    | ['.'] => true
    | '.' :: b :: _ => b = SEP
    | _ => false

/-- `Components::len_before_body`: one byte for the root separator and
one for a leading `CurDir`, while the front state has not passed
`StartDir`. -/
def lenBeforeBody (c : Components) : Nat :=
  (if c.front.rank ≤ PState.startDir.rank ∧ c.physRoot then 1 else 0) +
  (if c.front.rank ≤ PState.startDir.rank ∧ includeCurDir c then 1 else 0)

/-- `Components::parse_next_component`: split at the first separator;
the consumed size counts the separator. -/
def parseNextComponent (c : Components) : Nat × Option Component :=
  match c.path.findIdx? (· = SEP) with
  | some i => (i + 1, parseSingleComponent (c.path.take i))
  | none => (c.path.length, parseSingleComponent c.path)

/-- Index of the last separator in a list, if any (`Iterator::rposition`). -/
def rposSep (l : List Char) : Option Nat :=
  match l.reverse.findIdx? (· = SEP) with
  | some j => some (l.length - 1 - j)
  | none => none

/-- `Components::parse_next_component_back`: split the body (the path
after `len_before_body`) at the last separator. -/
def parseNextComponentBack (c : Components) : Nat × Option Component :=
  let start := lenBeforeBody c
  let rest := c.path.drop start
  match rposSep rest with
  | some i => (rest.length - (i + 1) + 1, parseSingleComponent (rest.drop (i + 1)))
  | none => (rest.length, parseSingleComponent rest)

/-- The loop of `Components::trim_left`: drop size-counted empty
components from the left until a real component appears. -/
def trimLeftGo : Nat → Components → Components
  | 0, c => c
  | fuel + 1, c =>
    if c.path.isEmpty then c
    else
      let (size, comp) := parseNextComponent c
      if comp.isSome then c
      else trimLeftGo fuel { c with path := c.path.drop size }

/-- `Components::trim_left`. -/
def trimLeft (c : Components) : Components := trimLeftGo c.path.length c

/-- The loop of `Components::trim_right`. -/
def trimRightGo : Nat → Components → Components
  | 0, c => c
  | fuel + 1, c =>
    if lenBeforeBody c < c.path.length then
      let (size, comp) := parseNextComponentBack c
      if comp.isSome then c
      else trimRightGo fuel { c with path := c.path.take (c.path.length - size) }
    else c

/-- `Components::trim_right`. -/
def trimRight (c : Components) : Components := trimRightGo c.path.length c

/-- `Components::as_path`: trim both ends while the corresponding state
is still `Body`, then return the remaining path. -/
def asPath (c : Components) : List Char :=
  let c1 := if c.front = .body then trimLeft c else c
  let c2 := if c1.back = .body then trimRight c1 else c1
  c2.path

/-- The loop of `Iterator::next` for `Components`: yield the root or a
leading `CurDir` from the `StartDir` state, then components from the
left, skipping empty ones. -/
def nextGo : Nat → Components → Option (Component × Components)
  | 0, _ => none
  | fuel + 1, c =>
    if c.isFinished then none
    else
      match c.front with
      | .startDir =>
        let c1 := { c with front := .body }
        if c.physRoot then some (.rootDir, { c1 with path := c.path.drop 1 })
        else if includeCurDir c then some (.curDir, { c1 with path := c.path.drop 1 })
        else nextGo fuel c1
      | .body =>
        if c.path.isEmpty then nextGo fuel { c with front := .finished }
        else
          let (size, comp) := parseNextComponent c
          let c2 := { c with path := c.path.drop size }
          match comp with
          | some x => some (x, c2)
          | none => nextGo fuel c2
      | .finished => none

/-- `Iterator::next` for `Components`. -/
def nextC (c : Components) : Option (Component × Components) :=
  nextGo (c.path.length + 3) c

/-- The loop of `DoubleEndedIterator::next_back` for `Components`:
yield components from the right, skipping empty ones, then the leading
`CurDir` or the root from the `StartDir` state. -/
def nextBackGo : Nat → Components → Option (Component × Components)
  | 0, _ => none
  | fuel + 1, c =>
    if c.isFinished then none
    else
      match c.back with
      | .body =>
        if lenBeforeBody c < c.path.length then
          let (size, comp) := parseNextComponentBack c
          let c2 := { c with path := c.path.take (c.path.length - size) }
          match comp with
          | some x => some (x, c2)
          | none => nextBackGo fuel c2
        else nextBackGo fuel { c with back := .startDir }
      | .startDir =>
        let c1 := { c with back := .finished }
        if c.physRoot then some (.rootDir, { c1 with path := c.path.take (c.path.length - 1) })
        else if includeCurDir c then
          some (.curDir, { c1 with path := c.path.take (c.path.length - 1) })
        else nextBackGo fuel c1
      | .finished => none

/-- `DoubleEndedIterator::next_back` for `Components`. -/
def nextBack (c : Components) : Option (Component × Components) :=
  nextBackGo (c.path.length + 3) c

/-- Collect the forward iteration of a `Components` iterator. -/
def toListGo : Nat → Components → List Component
  | 0, _ => []
  | fuel + 1, c =>
    match nextC c with
    | none => []
    | some (x, c2) => x :: toListGo fuel c2

/-- The component sequence of a path, `Path::components().collect()`. -/
def componentsOf (p : List Char) : List Component :=
  toListGo (p.length + 3) (Components.new p)

/-- `Path::parent`: pop one component from the back; `RootDir` (or an
empty iteration) has no parent, otherwise the rest of the iterator as a
path. -/
def parent (p : List Char) : Option (List Char) :=
  match nextBack (Components.new p) with
  | none => none
  | some (.rootDir, _) => none
  | some (_, c2) => some (asPath c2)

/-- `Path::file_name`: the last component if it is `Normal`. -/
def fileName (p : List Char) : Option (List Char) :=
  match nextBack (Components.new p) with
  | some (.normal s, _) => some s
  | _ => none

/-- The loop of `iter_after` (forward direction): consume matching
components; when the prefix runs out return the not-yet-advanced
iterator, on a mismatch or early end of `iter` return `None`. -/
def iterAfterGo : Nat → Components → Components → Option Components
  | 0, _, _ => none
  | fuel + 1, iter, pfx =>
    match nextC pfx with
    | none => some iter
    | some (y, pfx2) =>
      match nextC iter with
      | none => none
      | some (x, iter2) => if x = y then iterAfterGo fuel iter2 pfx2 else none

/-- `iter_after` on forward component iterators. -/
def iterAfter (iter pfx : Components) : Option Components :=
  iterAfterGo (pfx.path.length + 3) iter pfx

/-- `Path::strip_prefix`: `iter_after` on the two component iterators,
then `as_path`; `none` is `Err(StripPrefixError)`. -/
def stripPre (self base : List Char) : Option (List Char) :=
  (iterAfter (Components.new self) (Components.new base)).map asPath

/-- `PathBuf::_push`: `need_sep` is true when the rightmost byte *is* a
separator (the comment in the source states the opposite rule); an
absolute path replaces the buffer, otherwise the path is appended with
a separator in between when `need_sep` holds.  The `has_root` branch is
unreachable because `is_absolute()` is defined as `has_root()`. -/
def pushP (self p : List Char) : List Char :=
  let needSep : Bool := match self.getLast? with
    | some c => c = SEP
    | none => false
  if hasPhysicalRoot p then p
  else if hasPhysicalRoot p then self ++ p
  else if needSep then self ++ [SEP] ++ p
  else self ++ p

/-- `Path::join`: copy to a `PathBuf` and `push`. -/
def joinP (a b : List Char) : List Char := pushP a b

end Paths

/-! ## Theorems for claims C5 and C6 -/

namespace Paths

/-- The character list of a string literal. -/
def str (s : String) : List Char := s.data

end Paths

/-- C5: the claim states that `join` with a relative right operand
inserts a `'/'` exactly when the left operand is non-empty and does not
already end in a separator, and that `join(a, b).strip_prefix(a) = b`
for relative `b`.  The code's `need_sep` in `PathBuf::_push` tests
`last == SEPERATOR`, the inverse of its own comment ("a separator is
needed if the rightmost byte is not a separator"), so
`join("/a", "b") = "/ab"` (no separator inserted) and
`join("/a/", "b") = "/a//b"` (an extra separator inserted), and
`strip_prefix` on the result fails instead of returning `"b"`.
An absolute right operand does replace the left operand. -/
theorem pathbuf_push_need_sep_inverted :
    Paths.joinP (Paths.str "/a") (Paths.str "b") = Paths.str "/ab" ∧
    Paths.joinP (Paths.str "/a/") (Paths.str "b") = Paths.str "/a//b" ∧
    Paths.stripPre (Paths.joinP (Paths.str "/a") (Paths.str "b")) (Paths.str "/a") = none ∧
    Paths.joinP (Paths.str "/a") (Paths.str "/x/y") = Paths.str "/x/y" := by
  decide

/-- C6 counterexample: the components of `"/a//b/./c/../d/"` are *not*
`RootDir, Normal "a", Normal "b", CurDir, Normal "c", ParentDir,
Normal "d"`: the interior `"."` is dropped by `parse_single_component`
(a `CurDir` is only produced for a path that starts with `"."` and has
no root), so no `CurDir` is yielded. -/
theorem components_example_no_curdir :
    Paths.componentsOf (Paths.str "/a//b/./c/../d/") ≠
      [.rootDir, .normal (Paths.str "a"), .normal (Paths.str "b"), .curDir,
       .normal (Paths.str "c"), .parentDir, .normal (Paths.str "d")] := by
  decide

/-- C6 amended: for the input `"/a//b/./c/../d/"` the `Components`
iterator yields exactly `RootDir, Normal "a", Normal "b", Normal "c",
ParentDir, Normal "d"` in that order (the interior `"."` is skipped,
like `""` from the doubled separator); `parent()` of this path is
`"/a//b/./c/.."` and `file_name()` is `"d"`. -/
theorem components_example_eval :
    Paths.componentsOf (Paths.str "/a//b/./c/../d/") =
      [.rootDir, .normal (Paths.str "a"), .normal (Paths.str "b"),
       .normal (Paths.str "c"), .parentDir, .normal (Paths.str "d")] ∧
    Paths.parent (Paths.str "/a//b/./c/../d/") = some (Paths.str "/a//b/./c/..") ∧
    Paths.fileName (Paths.str "/a//b/./c/../d/") = some (Paths.str "d") := by
  exact ⟨by decide, by decide, by decide⟩

/-! ## Directory-entry cache (src/kernel/src/fs/dentry.rs)

The cache `HashMap<PathBuf, (DEntry, AtomicU64)>` is embedded as an
association list of `(path, last_access)` pairs with pairwise distinct
keys (the `HashMap` invariant); the key type is a parameter standing
for `PathBuf`, and `MOUNTS.is_mount_path` is a predicate parameter.
The `DEntry` payload plays no part in insertion or eviction and is
omitted. -/

namespace Dentry

/-- `CACHE_SIZE = 0x8000 / size_of::<DEntry>()`; a `DEntry` is a single
`Arc` pointer, 8 bytes on x86_64. -/
def CACHE_SIZE : Nat := 0x8000 / 8

/-- `u64::MAX`, the initial `lru_time`. -/
def U64MAX : Nat := 18446744073709551615

variable {κ : Type}

/-- The scan loop of `evict_entry`: fold over the entries, skipping
mount paths and keeping the first strictly smaller `last_access`. -/
def evictScan (isMount : κ → Bool) : List (κ × Nat) → Option κ × Nat → Option κ × Nat
  | [], acc => acc
  | (k, t) :: rest, (lru, lt) =>
    if isMount k then evictScan isMount rest (lru, lt)
    else if t < lt then evictScan isMount rest (some k, t)
    else evictScan isMount rest (lru, lt)

/-- `HashMap::remove(&lru)`: drop the entry with the given key. -/
def removeKey [DecidableEq κ] (k : κ) (l : List (κ × Nat)) : List (κ × Nat) :=
  l.eraseP (fun e => e.1 == k)

/-- `evict_entry`: scan for the least-recently-used non-mount entry and
remove it; when every entry is a mount path nothing is removed. -/
def evictEntry [DecidableEq κ] (isMount : κ → Bool) (entries : List (κ × Nat)) :
    List (κ × Nat) :=
  match (evictScan isMount entries (none, U64MAX)).1 with
  | some k => removeKey k entries
  | none => entries

/-- `HashMap::insert`: replace the value when the key is present,
otherwise add the pair. -/
def insertKey [DecidableEq κ] (k : κ) (t : Nat) (l : List (κ × Nat)) : List (κ × Nat) :=
  if l.any (fun e => e.1 == k) then
    l.map (fun e => if e.1 = k then (k, t) else e)
  else l ++ [(k, t)]

/-- `insert_entry`: evict when the cache already holds `CACHE_SIZE`
entries, then insert the new entry stamped with the current tick. -/
def insertEntry [DecidableEq κ] (isMount : κ → Bool) (entries : List (κ × Nat))
    (name : κ) (tick : Nat) : List (κ × Nat) :=
  let e2 := if CACHE_SIZE ≤ entries.length then evictEntry isMount entries else entries
  insertKey name tick e2

/-- A sequence of `insert_entry` calls. -/
def insertSeq [DecidableEq κ] (isMount : κ → Bool) (st : List (κ × Nat))
    (ops : List (κ × Nat)) : List (κ × Nat) :=
  ops.foldl (fun s op => insertEntry isMount s op.1 op.2) st

theorem evictScan_snd_le (isMount : κ → Bool) :
    ∀ (l : List (κ × Nat)) (acc : Option κ × Nat),
      (evictScan isMount l acc).2 ≤ acc.2 := by
  intro l
  induction l with
  | nil => intro acc; simp [evictScan]
  | cons hd rest ih =>
    rintro ⟨lru, lt⟩
    obtain ⟨k, t⟩ := hd
    show (if isMount k then evictScan isMount rest (lru, lt)
      else if t < lt then evictScan isMount rest (some k, t)
      else evictScan isMount rest (lru, lt)).2 ≤ lt
    by_cases hm : isMount k
    · rw [if_pos hm]; exact ih (lru, lt)
    · rw [if_neg hm]
      by_cases hlt : t < lt
      · rw [if_pos hlt]; exact le_trans (ih (some k, t)) (le_of_lt hlt)
      · rw [if_neg hlt]; exact ih (lru, lt)

theorem evictScan_min (isMount : κ → Bool) :
    ∀ (l : List (κ × Nat)) (acc : Option κ × Nat) (e : κ × Nat),
      e ∈ l → isMount e.1 = false →
      (evictScan isMount l acc).2 ≤ e.2 := by
  intro l
  induction l with
  | nil => intro acc e he _; simp at he
  | cons hd rest ih =>
    rintro ⟨lru, lt⟩ ⟨ek, et⟩ he hm
    obtain ⟨k, t⟩ := hd
    show (if isMount k then evictScan isMount rest (lru, lt)
      else if t < lt then evictScan isMount rest (some k, t)
      else evictScan isMount rest (lru, lt)).2 ≤ et
    rcases List.mem_cons.mp he with heq | htail
    · obtain ⟨rfl, rfl⟩ : k = ek ∧ t = et := by
        exact ⟨(Prod.mk.injEq _ _ _ _ ▸ heq).1.symm ▸ rfl, congrArg Prod.snd heq.symm⟩
      rw [if_neg (by simp [hm] : ¬ (isMount k = true))]
      by_cases hlt : t < lt
      · rw [if_pos hlt]; exact evictScan_snd_le isMount rest (some k, t)
      · rw [if_neg hlt]
        exact le_trans (evictScan_snd_le isMount rest (lru, lt)) (by omega)
    · by_cases hmk : isMount k
      · rw [if_pos hmk]; exact ih (lru, lt) (ek, et) htail hm
      · rw [if_neg hmk]
        by_cases hlt : t < lt
        · rw [if_pos hlt]; exact ih (some k, t) (ek, et) htail hm
        · rw [if_neg hlt]; exact ih (lru, lt) (ek, et) htail hm

theorem evictScan_found (isMount : κ → Bool) :
    ∀ (l : List (κ × Nat)) (acc : Option κ × Nat) (k : κ),
      (evictScan isMount l acc).1 = some k →
      (acc.1 = some k ∧ (evictScan isMount l acc).2 = acc.2) ∨
      ((k, (evictScan isMount l acc).2) ∈ l ∧ isMount k = false) := by
  intro l
  induction l with
  | nil => intro acc k h; exact Or.inl ⟨h, rfl⟩
  | cons hd rest ih =>
    rintro ⟨lru, lt⟩ k h
    obtain ⟨k0, t0⟩ := hd
    have hunf : evictScan isMount ((k0, t0) :: rest) (lru, lt) =
        (if isMount k0 then evictScan isMount rest (lru, lt)
         else if t0 < lt then evictScan isMount rest (some k0, t0)
         else evictScan isMount rest (lru, lt)) := rfl
    rw [hunf] at h ⊢
    by_cases hm : isMount k0
    · rw [if_pos hm] at h ⊢
      rcases ih (lru, lt) k h with hl | hr
      · exact Or.inl hl
      · exact Or.inr ⟨List.mem_cons_of_mem _ hr.1, hr.2⟩
    · rw [if_neg hm] at h ⊢
      have hm0 : isMount k0 = false := by simpa using hm
      by_cases hlt : t0 < lt
      · rw [if_pos hlt] at h ⊢
        rcases ih (some k0, t0) k h with hl | hr
        · obtain ⟨hk, hsnd⟩ := hl
          obtain rfl : k0 = k := by simpa using hk
          exact Or.inr ⟨by rw [hsnd]; exact List.mem_cons_self _ _, hm0⟩
        · exact Or.inr ⟨List.mem_cons_of_mem _ hr.1, hr.2⟩
      · rw [if_neg hlt] at h ⊢
        rcases ih (lru, lt) k h with hl | hr
        · exact Or.inl hl
        · exact Or.inr ⟨List.mem_cons_of_mem _ hr.1, hr.2⟩

theorem evictScan_some (isMount : κ → Bool) :
    ∀ (l : List (κ × Nat)) (k : κ) (t : Nat),
      ((evictScan isMount l (some k, t)).1).isSome := by
  intro l
  induction l with
  | nil => intro k t; simp [evictScan]
  | cons hd rest ih =>
    intro k t
    obtain ⟨k0, t0⟩ := hd
    show ((if isMount k0 then evictScan isMount rest (some k, t)
      else if t0 < t then evictScan isMount rest (some k0, t0)
      else evictScan isMount rest (some k, t)).1).isSome
    by_cases hm : isMount k0
    · rw [if_pos hm]; exact ih k t
    · rw [if_neg hm]
      by_cases hlt : t0 < t
      · rw [if_pos hlt]; exact ih k0 t0
      · rw [if_neg hlt]; exact ih k t

theorem evictScan_progress (isMount : κ → Bool) :
    ∀ (l : List (κ × Nat)) (acc : Option κ × Nat) (e : κ × Nat),
      e ∈ l → isMount e.1 = false → e.2 < acc.2 →
      ((evictScan isMount l acc).1).isSome := by
  intro l
  induction l with
  | nil => intro acc e he _ _; simp at he
  | cons hd rest ih =>
    rintro ⟨lru, lt⟩ ⟨ek, et⟩ he hm hlt
    obtain ⟨k0, t0⟩ := hd
    show ((if isMount k0 then evictScan isMount rest (lru, lt)
      else if t0 < lt then evictScan isMount rest (some k0, t0)
      else evictScan isMount rest (lru, lt)).1).isSome
    rcases List.mem_cons.mp he with heq | htail
    · obtain ⟨rfl, rfl⟩ : k0 = ek ∧ t0 = et := by
        constructor
        · exact congrArg Prod.fst heq.symm
        · exact congrArg Prod.snd heq.symm
      rw [if_neg (by simp [hm] : ¬ (isMount k0 = true))]
      rw [if_pos (by exact hlt)]
      exact evictScan_some isMount rest k0 t0
    · by_cases hmk : isMount k0
      · rw [if_pos hmk]; exact ih (lru, lt) (ek, et) htail hm hlt
      · rw [if_neg hmk]
        by_cases h0 : t0 < lt
        · rw [if_pos h0]; exact evictScan_some isMount rest k0 t0
        · rw [if_neg h0]; exact ih (lru, lt) (ek, et) htail hm hlt

theorem removeKey_eq_erase [DecidableEq κ] (k : κ) (t : Nat) :
    ∀ (l : List (κ × Nat)), (l.map Prod.fst).Nodup → (k, t) ∈ l →
      removeKey k l = l.erase (k, t) := by
  intro l
  induction l with
  | nil => intro _ h; simp at h
  | cons hd rest ih =>
    intro hnd hmem
    obtain ⟨k0, t0⟩ := hd
    simp only [List.map_cons, List.nodup_cons] at hnd
    by_cases hk : k0 = k
    · subst hk
      have ht : t0 = t := by
        rcases List.mem_cons.mp hmem with heq | htail
        · exact congrArg Prod.snd heq.symm
        · exact absurd (List.mem_map.mpr ⟨(k0, t), htail, rfl⟩) hnd.1
      subst ht
      simp [removeKey, List.eraseP_cons, List.erase_cons]
    · have htail : (k, t) ∈ rest := by
        rcases List.mem_cons.mp hmem with heq | htl
        · exact absurd (congrArg Prod.fst heq).symm hk
        · exact htl
      have hbeq : (k0 == k) = false := beq_eq_false_iff_ne.mpr hk
      have hne : ((k0, t0) == (k, t)) = false := by
        apply beq_eq_false_iff_ne.mpr
        simp [hk]
      rw [removeKey, List.eraseP_cons, List.erase_cons, hbeq, if_neg (by simp [hk])]
      simpa [removeKey] using ih hnd.2 htail

end Dentry

namespace Dentry

theorem evict_spec {κ : Type} [DecidableEq κ] (isMount : κ → Bool)
    (st : List (κ × Nat))
    (hnodup : (st.map Prod.fst).Nodup)
    (hex : ∃ e ∈ st, isMount e.1 = false ∧ e.2 < U64MAX) :
    ∃ e ∈ st, isMount e.1 = false ∧
      (∀ e2 ∈ st, isMount e2.1 = false → e.2 ≤ e2.2) ∧
      evictEntry isMount st = st.erase e := by
  obtain ⟨e0, he0, hm0, ht0⟩ := hex
  have hsome := evictScan_progress isMount st (none, U64MAX) e0 he0 hm0 ht0
  obtain ⟨k, hk⟩ := Option.isSome_iff_exists.mp hsome
  rcases evictScan_found isMount st (none, U64MAX) k hk with ⟨habs, _⟩ | ⟨hmem, hnm⟩
  · exact absurd habs (by simp)
  refine ⟨(k, (evictScan isMount st (none, U64MAX)).2), hmem, hnm, ?_, ?_⟩
  · intro e2 he2 hm2
    exact evictScan_min isMount st (none, U64MAX) e2 he2 hm2
  · unfold evictEntry
    rw [hk]
    exact removeKey_eq_erase k _ st hnodup hmem

theorem insertKey_presKey {κ : Type} [DecidableEq κ] (k name : κ) (tick : Nat)
    (l : List (κ × Nat)) :
    (∃ t, (k, t) ∈ l) → ∃ t2, (k, t2) ∈ insertKey name tick l := by
  rintro ⟨t, ht⟩
  unfold insertKey
  by_cases hany : l.any (fun e => e.1 == name)
  · rw [if_pos hany]
    by_cases hkn : k = name
    · subst hkn
      exact ⟨tick, List.mem_map.mpr ⟨(k, t), ht, by simp⟩⟩
    · exact ⟨t, List.mem_map.mpr ⟨(k, t), ht, by simp [hkn]⟩⟩
  · rw [if_neg hany]
    exact ⟨t, List.mem_append_left _ ht⟩

theorem mount_not_evicted {κ : Type} [DecidableEq κ] (isMount : κ → Bool)
    (st : List (κ × Nat)) (k : κ) (t : Nat)
    (hm : isMount k = true) (hmem : (k, t) ∈ st) :
    (k, t) ∈ evictEntry isMount st := by
  unfold evictEntry
  cases hc : (evictScan isMount st (none, U64MAX)).1 with
  | none => exact hmem
  | some k2 =>
    rcases evictScan_found isMount st (none, U64MAX) k2 hc with ⟨habs, _⟩ | ⟨_, hnm⟩
    · exact absurd habs (by simp)
    · have hne : ¬ (((k, t).1 == k2) = true) := by
        simp only [beq_iff_eq]
        intro h
        rw [h] at hm
        rw [hm] at hnm
        exact Bool.true_eq_false.mp hnm
      unfold removeKey
      exact (List.mem_eraseP_of_neg (p := fun e => e.1 == k2) (a := (k, t)) hne).mpr hmem

theorem mount_pres_insert {κ : Type} [DecidableEq κ] (isMount : κ → Bool)
    (st : List (κ × Nat)) (name k : κ) (tick : Nat)
    (hm : isMount k = true) :
    (∃ t, (k, t) ∈ st) → ∃ t2, (k, t2) ∈ insertEntry isMount st name tick := by
  rintro ⟨t, ht⟩
  unfold insertEntry
  apply insertKey_presKey
  by_cases hlen : CACHE_SIZE ≤ st.length
  · rw [if_pos hlen]
    exact ⟨t, mount_not_evicted isMount st k t hm ht⟩
  · rw [if_neg hlen]
    exact ⟨t, ht⟩

theorem mount_pres_seq {κ : Type} [DecidableEq κ] (isMount : κ → Bool)
    (ops : List (κ × Nat)) :
    ∀ (st : List (κ × Nat)) (k : κ), isMount k = true →
      (∃ t, (k, t) ∈ st) → ∃ t2, (k, t2) ∈ insertSeq isMount st ops := by
  induction ops with
  | nil => intro st k _ h; exact h
  | cons op rest ih =>
    intro st k hm h
    exact ih _ k hm (mount_pres_insert isMount st op.1 k op.2 hm h)

end Dentry

/-- C7: when inserting into the directory-entry cache while it already
holds `CACHE_SIZE` entries, and some entry is not a mount-root path (its
tick below `u64::MAX`, the scan's initial bound), exactly one entry with
the smallest `last_access` among the non-mount entries is removed before
the insertion; and an entry whose path is a mount-root path survives
every sequence of insertions. -/
theorem dentry_cache_eviction_spec {κ : Type} [DecidableEq κ] (isMount : κ → Bool)
    (st : List (κ × Nat)) (name : κ) (tick : Nat)
    (hfull : Dentry.CACHE_SIZE ≤ st.length)
    (hnodup : (st.map Prod.fst).Nodup)
    (hex : ∃ e ∈ st, isMount e.1 = false ∧ e.2 < Dentry.U64MAX) :
    (∃ e ∈ st, isMount e.1 = false ∧
        (∀ e2 ∈ st, isMount e2.1 = false → e.2 ≤ e2.2) ∧
        Dentry.insertEntry isMount st name tick =
          Dentry.insertKey name tick (st.erase e) ∧
        (st.erase e).length + 1 = st.length) ∧
    (∀ (ops : List (κ × Nat)) (st0 : List (κ × Nat)) (k : κ) (t : Nat),
        isMount k = true → (k, t) ∈ st0 →
        ∃ t2, (k, t2) ∈ Dentry.insertSeq isMount st0 ops) := by
  constructor
  · obtain ⟨e, hmem, hnm, hmin, hev⟩ := Dentry.evict_spec isMount st hnodup hex
    refine ⟨e, hmem, hnm, hmin, ?_, ?_⟩
    · unfold Dentry.insertEntry
      rw [if_pos hfull, hev]
    · have h1 := List.length_erase_of_mem hmem
      have h2 : st.length ≠ 0 := by
        intro h0
        rw [List.length_eq_zero] at h0
        subst h0
        exact absurd hmem (List.not_mem_nil e)
      omega
  · intro ops st0 k t hm hmem
    exact Dentry.mount_pres_seq isMount ops st0 k hm ⟨t, hmem⟩

/-- C7 witness: the eviction theorem applied to a full cache of 4096
distinct non-mount entries (keyed by naturals standing for paths) with
ticks 0..4095, inserting a fresh key. -/
theorem dentry_cache_eviction_spec_witness :
    (Dentry.CACHE_SIZE ≤ ((List.range Dentry.CACHE_SIZE).map (fun i => (i, i))).length) ∧
    ((((List.range Dentry.CACHE_SIZE).map (fun i => (i, i))).map Prod.fst).Nodup) ∧
    (∃ e ∈ (List.range Dentry.CACHE_SIZE).map (fun i => (i, i)),
      (fun (_ : Nat) => false) e.1 = false ∧ e.2 < Dentry.U64MAX) ∧
    ((∃ e ∈ (List.range Dentry.CACHE_SIZE).map (fun i => (i, i)),
        (fun (_ : Nat) => false) e.1 = false ∧
        (∀ e2 ∈ (List.range Dentry.CACHE_SIZE).map (fun i => (i, i)),
          (fun (_ : Nat) => false) e2.1 = false → e.2 ≤ e2.2) ∧
        Dentry.insertEntry (fun _ => false)
            ((List.range Dentry.CACHE_SIZE).map (fun i => (i, i)))
            Dentry.CACHE_SIZE 7 =
          Dentry.insertKey Dentry.CACHE_SIZE 7
            (((List.range Dentry.CACHE_SIZE).map (fun i => (i, i))).erase e) ∧
        ((((List.range Dentry.CACHE_SIZE).map (fun i => (i, i))).erase e).length + 1 =
          ((List.range Dentry.CACHE_SIZE).map (fun i => (i, i))).length)) ∧
      (∀ (ops : List (Nat × Nat)) (st0 : List (Nat × Nat)) (k : Nat) (t : Nat),
        (fun (_ : Nat) => false) k = true → (k, t) ∈ st0 →
        ∃ t2, (k, t2) ∈ Dentry.insertSeq (fun _ => false) st0 ops)) := by
  have h1 : Dentry.CACHE_SIZE ≤
      ((List.range Dentry.CACHE_SIZE).map (fun i => (i, i))).length := by simp
  have h2 : ((((List.range Dentry.CACHE_SIZE).map (fun i => (i, i))).map Prod.fst)).Nodup := by
    rw [List.map_map]
    have h : (Prod.fst ∘ fun (i : Nat) => (i, i)) = id := funext fun i => rfl
    rw [h, List.map_id]
    exact List.nodup_range _
  have h3 : ∃ e ∈ (List.range Dentry.CACHE_SIZE).map (fun i => (i, i)),
      (fun (_ : Nat) => false) e.1 = false ∧ e.2 < Dentry.U64MAX := by
    refine ⟨(0, 0), ?_, rfl, by decide⟩
    exact List.mem_map.mpr ⟨0, List.mem_range.mpr (by decide), rfl⟩
  exact ⟨h1, h2, h3,
    dentry_cache_eviction_spec (fun _ => false)
      ((List.range Dentry.CACHE_SIZE).map (fun i => (i, i)))
      Dentry.CACHE_SIZE 7 h1 h2 h3⟩

/-! ## RAM filesystem directory entries (src/kernel/src/fs/ramfs/mod.rs)

A directory's data blocks are embedded as lists of 16 `DirEntry`
records (`BLOCK_SIZE / size_of::<DirEntry>() = 4096 / 256`); the byte
layout inside an entry is kept as the `(inode, length, name)` fields. -/

namespace Ramfs

/-- Entries per 4 KiB block: `4096 / 256`. -/
def ENTRIES_PER_BLOCK : Nat := 4096 / 256

/-- `ramfs::DirEntry { inode: u64, length: u8, name: [u8; 247] }`. -/
structure DirEntry where
  inode : Nat
  length : Nat
  name : List Char
  deriving DecidableEq, Repr

/-- An all-zero `DirEntry`, the content of a freshly zeroed slot. -/
def zeroEntry : DirEntry := ⟨0, 0, List.replicate 247 (Char.ofNat 0)⟩

/-- The entry written by `add_dir_entry`: the destination inode number,
the component length, and the component bytes zero-padded to 247. -/
def mkDirEntry (inodeN : Nat) (path : List Char) : DirEntry :=
  ⟨inodeN, path.length, path ++ List.replicate (247 - path.length) (Char.ofNat 0)⟩

/-- Overwrite the first entry with `inode == 0` in one block. -/
def setFirstFree : List DirEntry → DirEntry → Option (List DirEntry)
  | [], _ => none
  | d :: ds, e =>
    if d.inode = 0 then some (e :: ds)
    else (setFirstFree ds e).map (d :: ·)

/-- Overwrite the first free slot over a block sequence (used on the
reversed block list, matching `blocks.iter_mut().rev()`). -/
def appendRev : List (List DirEntry) → DirEntry → Option (List (List DirEntry))
  | [], _ => none
  | b :: bs, e =>
    match setFirstFree b e with
    | some b2 => some (b2 :: bs)
    | none => (appendRev bs e).map (b :: ·)

/-- A fresh zeroed block with the entry copied to slot 0. -/
def newDirBlock (e : DirEntry) : List DirEntry :=
  e :: List.replicate (ENTRIES_PER_BLOCK - 1) zeroEntry

/-- `InodeOps::append_dir_entry`: scan the blocks *in reverse order*
(each block's slots in forward order) for the first entry with
`inode == 0` and overwrite it; if none exists, push a fresh block. -/
def appendDirEntry (blocks : List (List DirEntry)) (e : DirEntry) : List (List DirEntry) :=
  match appendRev blocks.reverse e with
  | some bsRev => bsRev.reverse
  | none => blocks ++ [newDirBlock e]

/-- `DirIterator::next`, collected: walk all blocks and entries in
order, skip entries with `inode == 0` or `length == 0`, and yield
`(name[..length], inode)`. -/
def listDir (blocks : List (List DirEntry)) : List (List Char × Nat) :=
  (blocks.flatMap id).filterMap (fun e =>
    if e.inode = 0 ∨ e.length = 0 then none
    else some (e.name.take e.length, e.inode))

/-- The RAM filesystem superblock state relevant to inode numbering. -/
structure SuperBlockR where
  root : Nat
  count : Nat
  inodeNums : List Nat
  deriving DecidableEq, Repr

/-- `FileSystem::new`: root 0, count 0, no inodes. -/
def newSB : SuperBlockR := ⟨0, 0, []⟩

/-- `SuperBlock::create_inode`: the new inode's number is the current
`count`, which is then incremented. -/
def createInode (sb : SuperBlockR) : Nat × SuperBlockR :=
  let key := sb.count
  (key, { sb with count := sb.count + 1, inodeNums := sb.inodeNums ++ [key] })

/-- `FileSystem::init_super`: create the root inode and record its
number as `root`. -/
def initSuper (sb : SuperBlockR) : SuperBlockR :=
  let p := createInode sb
  { p.2 with root := p.1 }

end Ramfs

namespace Ramfs

/-- A used entry `("a", inode 1)` for the two-block example. -/
def exU1 : DirEntry := mkDirEntry 1 ['a']

/-- A used entry `("b", inode 2)` for the two-block example. -/
def exU2 : DirEntry := mkDirEntry 2 ['b']

/-- Two directory blocks, each with slot 0 free and slots 1..15 used. -/
def exBlocksTwo : List (List DirEntry) :=
  [zeroEntry :: List.replicate 15 exU1, zeroEntry :: List.replicate 15 exU2]

/-- The entry `("x", inode 5)` being inserted in the examples. -/
def exE5 : DirEntry := mkDirEntry 5 ['x']

/-- One block whose slot 0 holds an entry for inode 0 named `root`. -/
def exBlocksRoot : List (List DirEntry) :=
  [mkDirEntry 0 ['r', 'o', 'o', 't'] :: List.replicate 15 zeroEntry]

theorem listDir_mem_spec (blocks : List (List DirEntry)) (pr : List Char × Nat)
    (h : pr ∈ listDir blocks) :
    pr.2 ≠ 0 ∧ ∃ e ∈ blocks.flatMap id, e.inode = pr.2 ∧ e.length ≠ 0 ∧
      pr.1 = e.name.take e.length := by
  unfold listDir at h
  obtain ⟨e, hmem, heq⟩ := List.mem_filterMap.mp h
  by_cases hz : e.inode = 0 ∨ e.length = 0
  · rw [if_pos hz] at heq
    exact absurd heq (by simp)
  · rw [if_neg hz] at heq
    obtain rfl : pr = (e.name.take e.length, e.inode) := (Option.some_inj.mp heq).symm
    push_neg at hz
    exact ⟨hz.1, e, hmem, rfl, hz.2, rfl⟩

end Ramfs

/-- C10 counterexample: with two blocks whose slot 0 is free in each,
`append_dir_entry` does *not* store into the first free slot of the
directory (block 0, slot 0): it stores into block 1, slot 0, because
the block list is scanned in reverse (`blocks.iter_mut().rev()`). -/
theorem ramfs_append_not_first_slot :
    Ramfs.appendDirEntry Ramfs.exBlocksTwo Ramfs.exE5 =
      [Ramfs.zeroEntry :: List.replicate 15 Ramfs.exU1,
       Ramfs.exE5 :: List.replicate 15 Ramfs.exU2] ∧
    Ramfs.appendDirEntry Ramfs.exBlocksTwo Ramfs.exE5 ≠
      [Ramfs.exE5 :: List.replicate 15 Ramfs.exU1,
       Ramfs.zeroEntry :: List.replicate 15 Ramfs.exU2] := by
  exact ⟨by decide, by decide⟩

/-- C10 amended: an entry with `inode == 0` is a free slot: `list`
yields only entries whose stored inode is non-zero and whose length
byte is non-zero (each yielded pair comes from such an entry, name
truncated to the length byte); `append_dir_entry` stores the new entry
into the first free slot scanning the blocks from the last to the
first (slots in order within each block), appending a fresh block only
when no slot is free.  `init_super` gives the root directory inode
number 0, so a directory entry created for inode 0 is skipped by
`list` and its slot is overwritten by the next insertion. -/
theorem ramfs_dir_free_slot_spec :
    (∀ (blocks : List (List Ramfs.DirEntry)) (pr : List Char × Nat),
        pr ∈ Ramfs.listDir blocks →
        pr.2 ≠ 0 ∧ ∃ e ∈ blocks.flatMap id, e.inode = pr.2 ∧ e.length ≠ 0 ∧
          pr.1 = e.name.take e.length) ∧
    (Ramfs.initSuper Ramfs.newSB).root = 0 ∧
    Ramfs.appendDirEntry Ramfs.exBlocksTwo Ramfs.exE5 =
      [Ramfs.zeroEntry :: List.replicate 15 Ramfs.exU1,
       Ramfs.exE5 :: List.replicate 15 Ramfs.exU2] ∧
    Ramfs.listDir Ramfs.exBlocksRoot = [] ∧
    Ramfs.appendDirEntry Ramfs.exBlocksRoot Ramfs.exE5 =
      [Ramfs.exE5 :: List.replicate 15 Ramfs.zeroEntry] := by
  exact ⟨Ramfs.listDir_mem_spec, by decide, by decide, by decide, by decide⟩

/-- C10 witness: the `list` part of the amended theorem applied to the
two-block example, where `("a", 1)` is yielded and indeed traces back
to a non-free entry. -/
theorem ramfs_dir_free_slot_spec_witness :
    ((['a'], 1) ∈ Ramfs.listDir Ramfs.exBlocksTwo) ∧
    ((['a'], (1 : Nat)).2 ≠ 0 ∧ ∃ e ∈ Ramfs.exBlocksTwo.flatMap id,
      e.inode = (['a'], (1 : Nat)).2 ∧ e.length ≠ 0 ∧
      (['a'], (1 : Nat)).1 = e.name.take e.length) :=
  ⟨by decide, ramfs_dir_free_slot_spec.1 Ramfs.exBlocksTwo (['a'], 1) (by decide)⟩
